import Mathlib

/-!
Verification of the MetaTesia MIDI playback controller and play-along
reconciler (`src/neothesia/src/scene/playing_scene/midi_player.rs`).

Shallow embedding conventions:
* `Instant`/`Duration` become `Nat` milliseconds; `Instant` subtraction becomes
  truncated `Nat` subtraction (real timestamps never exceed `now`).
* `HashSet<u8>` becomes `Finset Nat`; `VecDeque<UserPress>` becomes
  `List UserPress` (front at the head, `push_back` appends at the tail).
* The output connection is modelled as the trace of messages it received.
* Wall-clock `Instant::now()` calls become explicit `now : Nat` parameters.
-/

/-- MIDI message, mirroring the `midi_file::midly::MidiMessage` variants the
player inspects (`NoteOn`, `NoteOff`, `ProgramChange`); every other variant is
collapsed into `other`, which the reconciler ignores. -/
inductive MidiMessage where
  | noteOn (key : Nat) (vel : Nat)
  | noteOff (key : Nat) (vel : Nat)
  | programChange (program : Nat)
  | other
deriving DecidableEq, Repr

/-- `MidiEventSource` from midi_player.rs: which stream a note event belongs to. -/
inductive MidiEventSource where
  | File
  | User
deriving DecidableEq, Repr

/-- `UserPress` from midi_player.rs: a user key press with its wall-clock
timestamp (milliseconds). -/
structure UserPress where
  timestamp : Nat
  note_id : Nat
deriving DecidableEq, Repr

/-- Modelled from the spec: `piano_math::KeyboardRange` is not under `src/`;
the spec describes it as a closed interval of note identifiers with a
capability predicate `contains`. -/
structure KeyboardRange where
  lo : Nat
  hi : Nat
deriving DecidableEq, Repr

def KeyboardRange.contains (r : KeyboardRange) (n : Nat) : Bool :=
  decide (r.lo ≤ n) && decide (n ≤ r.hi)

/-- `PlayAlong` from midi_player.rs: the play-along reconciler state. -/
structure PlayAlong where
  user_keyboard_range : KeyboardRange
  required_notes : Finset Nat
  user_pressed_recently : List UserPress
deriving DecidableEq

/-- `PlayAlong::new`: both containers start empty. -/
def PlayAlong.new (user_keyboard_range : KeyboardRange) : PlayAlong :=
  { user_keyboard_range := user_keyboard_range
    required_notes := ∅
    user_pressed_recently := [] }

/-- `PlayAlong::update`: the periodic sweep; retains only the presses whose
age (relative to `now`) is at most the 500 ms threshold. -/
def PlayAlong.update (p : PlayAlong) (now : Nat) : PlayAlong :=
  { p with user_pressed_recently :=
      p.user_pressed_recently.filter (fun item => decide (now - item.timestamp ≤ 500)) }

/-- The `find`-and-update-else-`push_back` upsert inside
`PlayAlong::user_press_key`: refresh the timestamp of the first entry with
this `note_id`, or append a fresh entry at the back. -/
def upsertPress (note_id now : Nat) : List UserPress → List UserPress
  | [] => [⟨now, note_id⟩]
  | item :: rest =>
    if item.note_id = note_id then ⟨now, note_id⟩ :: rest
    else item :: upsertPress note_id now rest

/-- `PlayAlong::user_press_key`: on an active press, upsert into
`user_pressed_recently`; if the note was required, purge it from
`user_pressed_recently`; finally remove it from `required_notes`.
Inactive (release) events do nothing. -/
def PlayAlong.user_press_key (p : PlayAlong) (note_id : Nat) (active : Bool)
    (now : Nat) : PlayAlong :=
  if active then
    let pressed := upsertPress note_id now p.user_pressed_recently
    let pressed :=
      if note_id ∈ p.required_notes then
        pressed.filter (fun item => decide (item.note_id ≠ note_id))
      else pressed
    { p with user_pressed_recently := pressed
             required_notes := p.required_notes.erase note_id }
  else p

/-- The `enumerate`-`find`-`remove` step inside `PlayAlong::file_press_key`:
remove the first entry carrying this `note_id`. -/
def removeFirstPress (note_id : Nat) : List UserPress → List UserPress
  | [] => []
  | item :: rest =>
    if item.note_id = note_id then rest
    else item :: removeFirstPress note_id rest

/-- `PlayAlong::file_press_key`: an active file note consumes the first
pending user press for the note when one exists, otherwise the note becomes
required; an inactive file note removes the note from `required_notes`. -/
def PlayAlong.file_press_key (p : PlayAlong) (note_id : Nat) (active : Bool) :
    PlayAlong :=
  if active then
    if p.user_pressed_recently.any (fun item => item.note_id == note_id) then
      { p with user_pressed_recently :=
          removeFirstPress note_id p.user_pressed_recently }
    else
      { p with required_notes := insert note_id p.required_notes }
  else
    { p with required_notes := p.required_notes.erase note_id }

/-- `PlayAlong::press_key`: gate on the keyboard range, then dispatch on the
event source. -/
def PlayAlong.press_key (p : PlayAlong) (src : MidiEventSource) (note_id : Nat)
    (active : Bool) (now : Nat) : PlayAlong :=
  if p.user_keyboard_range.contains note_id then
    match src with
    | MidiEventSource.User => p.user_press_key note_id active now
    | MidiEventSource.File => p.file_press_key note_id active
  else p

/-- `PlayAlong::midi_event`: only note-on/note-off messages reach
`press_key`; everything else is ignored. -/
def PlayAlong.midi_event (p : PlayAlong) (source : MidiEventSource) (now : Nat)
    (message : MidiMessage) : PlayAlong :=
  match message with
  | MidiMessage.noteOn key _ => p.press_key source key true now
  | MidiMessage.noteOff key _ => p.press_key source key false now
  | _ => p

/-- `PlayAlong::clear` (the reconciler's `reset()`): clears `required_notes`
only. -/
def PlayAlong.clear (p : PlayAlong) : PlayAlong :=
  { p with required_notes := ∅ }

/-- `PlayAlong::are_required_keys_pressed`: true iff no note is still owed. -/
def PlayAlong.are_required_keys_pressed (p : PlayAlong) : Bool :=
  decide (p.required_notes = ∅)

/-- Number of pending-press entries carrying note `n`. -/
def countNote (n : Nat) (l : List UserPress) : Nat :=
  (l.filter (fun item => item.note_id == n)).length

/-- `PlayerConfig` from song.rs (per-track routing policy). -/
inductive PlayerConfig where
  | Auto
  | Human
  | Mute
deriving DecidableEq, Repr

/-- `midi_file::MidiEvent`: timestamp (ms), owning track, channel and message. -/
structure MidiEvent where
  timestamp : Nat
  track_id : Nat
  channel : Nat
  message : MidiMessage
deriving DecidableEq, Repr

/-- A program-change event of the song's program track: at `timestamp`, channel
`channel` switches to program `program`. -/
structure ProgEvent where
  timestamp : Nat
  channel : Nat
  program : Nat
deriving DecidableEq, Repr

/-- A message the output sink received: either a forwarded MIDI message on a
channel, or the `stop_all` all-notes-off. -/
inductive OutMsg where
  | midi (channel : Nat) (message : MidiMessage)
  | stopAll
deriving DecidableEq, Repr

/-- Modelled from the spec: `OutputConnection` (output_manager, not under
`src/`) is the output sink; we record the trace of messages sent to it. -/
structure OutputConnection where
  sent : List OutMsg
deriving DecidableEq

def OutputConnection.midi_event (o : OutputConnection) (channel : Nat)
    (message : MidiMessage) : OutputConnection :=
  { sent := o.sent ++ [OutMsg.midi channel message] }

def OutputConnection.stop_all (o : OutputConnection) : OutputConnection :=
  { sent := o.sent ++ [OutMsg.stopAll] }

/-- Modelled from the spec: `midi_file::PlaybackState` (not under `src/`) is
the time-indexed event source; `update(Δt)` is a no-op returning no events
while paused, and otherwise advances time and hands back the pending events
crossed; `set_time` relocates the position without replaying events. -/
structure PlaybackState where
  time : Nat
  paused : Bool
  length : Nat
  leed_in : Nat
  remaining : List MidiEvent
deriving DecidableEq

def PlaybackState.update (pb : PlaybackState) (delta : Nat) :
    List MidiEvent × PlaybackState :=
  if pb.paused then ([], pb)
  else
    let t := pb.time + delta
    (pb.remaining.filter (fun e => decide (e.timestamp ≤ t)),
     { pb with time := t
               remaining := pb.remaining.filter (fun e => !decide (e.timestamp ≤ t)) })

def PlaybackState.setTime (pb : PlaybackState) (t : Nat) : PlaybackState :=
  { pb with time := t }

def PlaybackState.pause (pb : PlaybackState) : PlaybackState :=
  { pb with paused := true }

def PlaybackState.resume (pb : PlaybackState) : PlaybackState :=
  { pb with paused := false }

/-- Insert-or-overwrite a channel's program in an association list. -/
def upsertProg : List (Nat × Nat) → Nat → Nat → List (Nat × Nat)
  | [], ch, prog => [(ch, prog)]
  | (c, q) :: rest, ch, prog =>
    if c = ch then (c, prog) :: rest else (c, q) :: upsertProg rest ch prog

/-- Modelled from the spec: `ProgramTrack::program_for_timestamp` (midi_file,
not under `src/`) returns, for each channel, the single active program as of
the timestamp; computed here by folding the channel-program assignments of
every program event at or before `time` over the track in file order. -/
def program_for_timestamp (track : List ProgEvent) (time : Nat) :
    List (Nat × Nat) :=
  track.foldl
    (fun acc e => if e.timestamp ≤ time then upsertProg acc e.channel e.program else acc)
    []

/-- The spec's characterisation of the active program: the program of the last
program-change event at or before `t` on channel `ch` (none if there is
none) — found by scanning the track backwards for the first match. -/
def lastProgramAtOrBefore (track : List ProgEvent) (t ch : Nat) : Option Nat :=
  (track.reverse.find?
      (fun e => decide (e.timestamp ≤ t) && decide (e.channel = ch))).map
    ProgEvent.program

/-- Modelled from the spec: the song/config collaborator — per-track
`PlayerConfig` and the program track. -/
structure Song where
  tracks : List PlayerConfig
  program_track : List ProgEvent
deriving DecidableEq

/-- `MidiPlayer` from midi_player.rs. -/
structure MidiPlayer where
  playback : PlaybackState
  output : OutputConnection
  song : Song
  play_along : PlayAlong
deriving DecidableEq

/-- The per-event routing closure inside `MidiPlayer::update`: Auto forwards
to the output; Human forwards to the output and reports to the reconciler as
file-sourced; Mute does nothing. -/
def routeStep (tracks : List PlayerConfig) (now : Nat)
    (acc : OutputConnection × PlayAlong) (event : MidiEvent) :
    OutputConnection × PlayAlong :=
  match tracks.getD event.track_id PlayerConfig.Mute with
  | PlayerConfig.Auto => (acc.1.midi_event event.channel event.message, acc.2)
  | PlayerConfig.Human =>
    (acc.1.midi_event event.channel event.message,
     acc.2.midi_event MidiEventSource.File now event.message)
  | PlayerConfig.Mute => acc

/-- `MidiPlayer::update`: run the reconciler's periodic sweep, pull the events
crossed from the playback source, route each one by its track's policy, and
return the consumed events. -/
def MidiPlayer.update (m : MidiPlayer) (delta : Nat) (now : Nat) :
    List MidiEvent × MidiPlayer :=
  let pa := m.play_along.update now
  let events := (m.playback.update delta).1
  let pb := (m.playback.update delta).2
  let acc := events.foldl (routeStep m.song.tracks now) (m.output, pa)
  (events, { m with playback := pb, output := acc.1, play_along := acc.2 })

/-- `MidiPlayer::clear`: send the all-notes-off to the output. -/
def MidiPlayer.clear (m : MidiPlayer) : MidiPlayer :=
  { m with output := m.output.stop_all }

/-- `MidiPlayer::pause`. -/
def MidiPlayer.pause (m : MidiPlayer) : MidiPlayer :=
  { m.clear with playback := m.playback.pause }

/-- `MidiPlayer::resume`: mark playing and clear the reconciler's outstanding
requirements. -/
def MidiPlayer.resume (m : MidiPlayer) : MidiPlayer :=
  { m with playback := m.playback.resume
           play_along := m.play_along.clear }

/-- `MidiPlayer::send_midi_programs_for_timestamp`: one `ProgramChange` per
channel, carrying the channel's active program as of `time`. -/
def MidiPlayer.send_midi_programs_for_timestamp (m : MidiPlayer) (time : Nat) :
    MidiPlayer :=
  let progs := program_for_timestamp m.song.program_track time
  { m with output :=
      progs.foldl (fun o cp => o.midi_event cp.1 (MidiMessage.programChange cp.2)) m.output }

/-- `MidiPlayer::set_time`: relocate the playback, discard the events the
source emits for the jump, send the all-notes-off, then replay the per-channel
programs for the new timestamp. -/
def MidiPlayer.set_time (m : MidiPlayer) (time : Nat) : MidiPlayer :=
  let pb1 := m.playback.setTime time
  let pb2 := (pb1.update 0).2
  (MidiPlayer.clear { m with playback := pb2 }).send_midi_programs_for_timestamp
    time

/-- `MidiPlayer::rewind`: shift the current position by a signed millisecond
delta with saturating arithmetic, then `set_time` the result. -/
def MidiPlayer.rewind (m : MidiPlayer) (delta : Int) : MidiPlayer :=
  let time := m.playback.time
  let time :=
    if delta < 0 then time - (-delta).toNat
    else time + delta.toNat
  m.set_time time

/-- One reconciler-facing operation: a NoteOn/NoteOff from either stream
(reaching the reconciler through `press_key`), a periodic sweep, or a reset. -/
inductive PAOp where
  | press (src : MidiEventSource) (note : Nat) (active : Bool) (now : Nat)
  | tick (now : Nat)
  | reset
deriving DecidableEq

def PAOp.apply (p : PlayAlong) : PAOp → PlayAlong
  | PAOp.press src note active now => p.press_key src note active now
  | PAOp.tick now => p.update now
  | PAOp.reset => p.clear

/-- Run a sequence of reconciler operations from a starting state. -/
def runOps (p : PlayAlong) (ops : List PAOp) : PlayAlong :=
  ops.foldl PAOp.apply p

/-- No note identifier is present in both `required_notes` and (as a pending
press) `user_pressed_recently`. -/
def NoteDisjoint (p : PlayAlong) : Prop :=
  ∀ item ∈ p.user_pressed_recently, item.note_id ∉ p.required_notes

instance (p : PlayAlong) : Decidable (NoteDisjoint p) := by
  unfold NoteDisjoint; infer_instance

/-- Spec-side description of `MidiPlayer::update`'s output routing: each
crossed event of an Auto or Human track is forwarded unconverted; Mute tracks
produce nothing. -/
def specRoutedOut (tracks : List PlayerConfig) : List MidiEvent → List OutMsg
  | [] => []
  | e :: rest =>
    (match tracks.getD e.track_id PlayerConfig.Mute with
      | PlayerConfig.Mute => []
      | _ => [OutMsg.midi e.channel e.message]) ++ specRoutedOut tracks rest

/-- Spec-side description of `MidiPlayer::update`'s reconciler feeding: each
crossed event of a Human track is reported to the reconciler as file-sourced. -/
def specRoutedPA (tracks : List PlayerConfig) (now : Nat) (pa : PlayAlong)
    (events : List MidiEvent) : PlayAlong :=
  events.foldl
    (fun pa e =>
      match tracks.getD e.track_id PlayerConfig.Mute with
      | PlayerConfig.Human => pa.midi_event MidiEventSource.File now e.message
      | _ => pa)
    pa

example :
    ((PlayAlong.new ⟨21, 108⟩).user_press_key 60 true 0).user_pressed_recently
      = [⟨0, 60⟩] := by decide

example :
    NoteDisjoint (runOps (PlayAlong.new ⟨21, 108⟩)
      [PAOp.press MidiEventSource.File 60 true 0,
       PAOp.press MidiEventSource.User 61 true 10,
       PAOp.press MidiEventSource.File 61 true 20,
       PAOp.tick 600,
       PAOp.press MidiEventSource.User 60 true 700]) := by decide

/-! Helper lemmas about the pending-press list operations. -/

lemma mem_upsertPress {item : UserPress} {n now : Nat} {l : List UserPress}
    (h : item ∈ upsertPress n now l) : item.note_id = n ∨ item ∈ l := by
  induction l with
  | nil =>
    simp only [upsertPress, List.mem_singleton] at h
    exact Or.inl (by simp [h])
  | cons hd tl ih =>
    simp only [upsertPress] at h
    by_cases hhd : hd.note_id = n
    · rw [if_pos hhd] at h
      rcases List.mem_cons.mp h with h | h
      · exact Or.inl (by simp [h])
      · exact Or.inr (List.mem_cons_of_mem _ h)
    · rw [if_neg hhd] at h
      rcases List.mem_cons.mp h with h | h
      · exact Or.inr (h ▸ List.mem_cons_self _ _)
      · rcases ih h with h | h
        · exact Or.inl h
        · exact Or.inr (List.mem_cons_of_mem _ h)

lemma removeFirstPress_sublist (n : Nat) (l : List UserPress) :
    List.Sublist (removeFirstPress n l) l := by
  induction l with
  | nil => simp [removeFirstPress]
  | cons hd tl ih =>
    simp only [removeFirstPress]
    by_cases hhd : hd.note_id = n
    · rw [if_pos hhd]; exact List.sublist_cons_self hd tl
    · rw [if_neg hhd]; exact ih.cons₂ hd

lemma anyNote_iff (l : List UserPress) (n : Nat) :
    l.any (fun item => item.note_id == n) = true ↔ ∃ item ∈ l, item.note_id = n := by
  simp [List.any_eq_true]

lemma countNote_cons (n : Nat) (hd : UserPress) (tl : List UserPress) :
    countNote n (hd :: tl)
      = countNote n tl + (if hd.note_id = n then 1 else 0) := by
  by_cases h : hd.note_id = n
  · simp [countNote, List.filter_cons, h]
  · simp [countNote, List.filter_cons, h]

lemma countNote_removeFirstPress_self {n : Nat} {l : List UserPress}
    (h : ∃ item ∈ l, item.note_id = n) :
    countNote n (removeFirstPress n l) + 1 = countNote n l := by
  induction l with
  | nil => simp at h
  | cons hd tl ih =>
    by_cases hhd : hd.note_id = n
    · simp [removeFirstPress, hhd, countNote_cons]
    · have htl : ∃ item ∈ tl, item.note_id = n := by
        rcases h with ⟨item, hmem, hid⟩
        rcases List.mem_cons.mp hmem with rfl | hmem
        · exact absurd hid hhd
        · exact ⟨item, hmem, hid⟩
      have hrec := ih htl
      simp only [removeFirstPress, if_neg hhd, countNote_cons]
      omega

lemma countNote_removeFirstPress_ne {k n : Nat} (hk : k ≠ n)
    (l : List UserPress) :
    countNote k (removeFirstPress n l) = countNote k l := by
  induction l with
  | nil => simp [removeFirstPress]
  | cons hd tl ih =>
    by_cases hhd : hd.note_id = n
    · have hne : ¬ hd.note_id = k := by
        rw [hhd]; exact fun hkn => hk hkn.symm
      simp only [removeFirstPress, if_pos hhd, countNote_cons, if_neg hne]
      omega
    · simp only [removeFirstPress, if_neg hhd, countNote_cons]
      omega

/-! Preservation of the disjointness invariant by every reconciler operation. -/

lemma noteDisjoint_user_press_key {p : PlayAlong} (hp : NoteDisjoint p)
    (n : Nat) (active : Bool) (now : Nat) :
    NoteDisjoint (p.user_press_key n active now) := by
  cases active with
  | false => simpa [PlayAlong.user_press_key] using hp
  | true =>
    intro item hmem
    simp only [PlayAlong.user_press_key, if_pos] at hmem ⊢
    rw [Finset.mem_erase]
    rintro ⟨hne, hreq⟩
    by_cases hreqn : n ∈ p.required_notes
    · rw [if_pos hreqn] at hmem
      have := List.of_mem_filter hmem
      have hmem' := List.mem_of_mem_filter hmem
      rcases mem_upsertPress hmem' with h | h
      · exact absurd h (by simpa using this)
      · exact hp item h hreq
    · rw [if_neg hreqn] at hmem
      rcases mem_upsertPress hmem with h | h
      · exact hne h
      · exact hp item h hreq

lemma noteDisjoint_file_press_key {p : PlayAlong} (hp : NoteDisjoint p)
    (n : Nat) (active : Bool) :
    NoteDisjoint (p.file_press_key n active) := by
  cases active with
  | false =>
    intro item hmem
    simp only [PlayAlong.file_press_key, Bool.false_eq_true, if_false] at hmem ⊢
    rw [Finset.mem_erase]
    rintro ⟨_, hreq⟩
    exact hp item hmem hreq
  | true =>
    intro item hmem
    simp only [PlayAlong.file_press_key, if_pos] at hmem ⊢
    by_cases hany : p.user_pressed_recently.any (fun item => item.note_id == n) = true
    · rw [if_pos hany] at hmem ⊢
      exact hp item ((removeFirstPress_sublist n _).subset hmem)
    · rw [if_neg hany] at hmem ⊢
      rw [Finset.mem_insert]
      rintro (hid | hreq)
      · rw [anyNote_iff] at hany
        exact hany ⟨item, hmem, hid⟩
      · exact hp item hmem hreq

lemma noteDisjoint_press_key {p : PlayAlong} (hp : NoteDisjoint p)
    (src : MidiEventSource) (n : Nat) (active : Bool) (now : Nat) :
    NoteDisjoint (p.press_key src n active now) := by
  unfold PlayAlong.press_key
  by_cases hc : p.user_keyboard_range.contains n = true
  · rw [if_pos hc]
    cases src
    · exact noteDisjoint_file_press_key hp n active
    · exact noteDisjoint_user_press_key hp n active now
  · rw [if_neg hc]; exact hp

lemma noteDisjoint_update {p : PlayAlong} (hp : NoteDisjoint p) (now : Nat) :
    NoteDisjoint (p.update now) := by
  intro item hmem
  exact hp item (List.mem_of_mem_filter hmem)

lemma noteDisjoint_clear {p : PlayAlong} : NoteDisjoint p.clear := by
  intro item _
  simp [PlayAlong.clear]

lemma noteDisjoint_apply {p : PlayAlong} (hp : NoteDisjoint p) (op : PAOp) :
    NoteDisjoint (PAOp.apply p op) := by
  cases op with
  | press src note active now => exact noteDisjoint_press_key hp src note active now
  | tick now => exact noteDisjoint_update hp now
  | reset => exact noteDisjoint_clear

lemma noteDisjoint_runOps {p : PlayAlong} (hp : NoteDisjoint p)
    (ops : List PAOp) : NoteDisjoint (runOps p ops) := by
  induction ops generalizing p with
  | nil => exact hp
  | cons op rest ih => exact ih (noteDisjoint_apply hp op)

/-! Branch equations for `file_press_key`. -/

lemma file_press_key_true_found (p : PlayAlong) (n : Nat)
    (hany : p.user_pressed_recently.any (fun item => item.note_id == n) = true) :
    p.file_press_key n true
      = { p with user_pressed_recently :=
            removeFirstPress n p.user_pressed_recently } := by
  simp [PlayAlong.file_press_key, hany]

lemma file_press_key_true_notfound (p : PlayAlong) (n : Nat)
    (hany : p.user_pressed_recently.any (fun item => item.note_id == n) = false) :
    p.file_press_key n true
      = { p with required_notes := insert n p.required_notes } := by
  simp [PlayAlong.file_press_key, hany]

lemma file_press_key_false (p : PlayAlong) (n : Nat) :
    p.file_press_key n false
      = { p with required_notes := p.required_notes.erase n } := by
  simp [PlayAlong.file_press_key]

/-! Claim theorems for the reconciler. -/

/-- C1: starting from the freshly constructed reconciler, no sequence of file
note events, user note events, periodic sweeps and resets can produce a state
in which some note identifier is both in `required_notes` and carried by a
`user_pressed_recently` entry. -/
theorem playAlong_required_pending_disjoint (kr : KeyboardRange)
    (ops : List PAOp) : NoteDisjoint (runOps (PlayAlong.new kr) ops) := by
  refine noteDisjoint_runOps ?_ ops
  intro item hmem
  simp [PlayAlong.new] at hmem

/-- Concrete run of `playAlong_required_pending_disjoint`. -/
theorem playAlong_required_pending_disjoint_witness :
    NoteDisjoint (runOps (PlayAlong.new ⟨21, 108⟩)
      [PAOp.press MidiEventSource.File 60 true 0,
       PAOp.press MidiEventSource.User 62 true 10,
       PAOp.press MidiEventSource.File 62 true 20,
       PAOp.press MidiEventSource.User 60 true 700,
       PAOp.tick 800,
       PAOp.reset]) :=
  playAlong_required_pending_disjoint ⟨21, 108⟩
    [PAOp.press MidiEventSource.File 60 true 0,
     PAOp.press MidiEventSource.User 62 true 10,
     PAOp.press MidiEventSource.File 62 true 20,
     PAOp.press MidiEventSource.User 60 true 700,
     PAOp.tick 800,
     PAOp.reset]

/-- C2: a file-sourced NoteOn consumes exactly one pending user press for the
note when one exists (leaving `required_notes` unchanged and other notes'
pending entries untouched); with no pending press it adds the note to
`required_notes`; a file-sourced NoteOff erases the note from `required_notes`
and, when the note was not required, changes nothing at all. -/
theorem file_press_key_spec (p : PlayAlong) (n : Nat) :
    ((∃ item ∈ p.user_pressed_recently, item.note_id = n) →
      (p.file_press_key n true).required_notes = p.required_notes ∧
      countNote n (p.file_press_key n true).user_pressed_recently + 1
        = countNote n p.user_pressed_recently ∧
      ∀ k, k ≠ n →
        countNote k (p.file_press_key n true).user_pressed_recently
          = countNote k p.user_pressed_recently) ∧
    ((∀ item ∈ p.user_pressed_recently, item.note_id ≠ n) →
      (p.file_press_key n true).required_notes = insert n p.required_notes ∧
      (p.file_press_key n true).user_pressed_recently
        = p.user_pressed_recently) ∧
    ((p.file_press_key n false).user_pressed_recently
        = p.user_pressed_recently ∧
     (p.file_press_key n false).required_notes = p.required_notes.erase n ∧
     (n ∉ p.required_notes → p.file_press_key n false = p)) := by
  refine ⟨?_, ?_, ?_, ?_, ?_⟩
  · intro h
    have hany := (anyNote_iff _ _).mpr h
    rw [file_press_key_true_found p n hany]
    exact ⟨rfl, countNote_removeFirstPress_self h,
      fun k hk => countNote_removeFirstPress_ne hk _⟩
  · intro h
    have hany : p.user_pressed_recently.any (fun item => item.note_id == n) = false := by
      rw [List.any_eq_false]
      intro item hmem
      simpa using h item hmem
    rw [file_press_key_true_notfound p n hany]
    exact ⟨rfl, rfl⟩
  · rw [file_press_key_false]
  · rw [file_press_key_false]
  · intro h
    rw [file_press_key_false, Finset.erase_eq_of_not_mem h]

/-- Concrete instantiation of `file_press_key_spec` with its hypotheses
discharged: one pending press for note 60 at timestamp 0. -/
theorem file_press_key_spec_witness :
    (∃ item ∈ [(⟨0, 60⟩ : UserPress)], item.note_id = 60) ∧
    ((PlayAlong.mk ⟨21, 108⟩ ∅ [⟨0, 60⟩]).file_press_key 60 true).required_notes
        = (∅ : Finset Nat) ∧
    countNote 60 ((PlayAlong.mk ⟨21, 108⟩ ∅ [⟨0, 60⟩]).file_press_key 60
        true).user_pressed_recently + 1 = countNote 60 [(⟨0, 60⟩ : UserPress)] ∧
    ∀ k, k ≠ 60 →
      countNote k ((PlayAlong.mk ⟨21, 108⟩ ∅ [⟨0, 60⟩]).file_press_key 60
          true).user_pressed_recently = countNote k [(⟨0, 60⟩ : UserPress)] :=
  ⟨by decide,
   (file_press_key_spec (PlayAlong.mk ⟨21, 108⟩ ∅ [⟨0, 60⟩]) 60).1
     ⟨⟨0, 60⟩, by decide, rfl⟩⟩

/-- C3: a user NoteOn for a required, in-range note removes the note from
`required_notes` and leaves no pending entry for it, for every wall-clock
timestamp `now` — no window gates a late press. -/
theorem user_press_required_note (p : PlayAlong) (n now : Nat)
    (hc : p.user_keyboard_range.contains n = true)
    (hreq : n ∈ p.required_notes) :
    n ∉ (p.press_key MidiEventSource.User n true now).required_notes ∧
    ∀ item ∈ (p.press_key MidiEventSource.User n true now).user_pressed_recently,
      item.note_id ≠ n := by
  unfold PlayAlong.press_key
  rw [if_pos hc]
  constructor
  · simp [PlayAlong.user_press_key]
  · intro item hmem
    simp only [PlayAlong.user_press_key, if_pos rfl, if_pos hreq] at hmem
    have := List.of_mem_filter hmem
    simpa using this

/-- Concrete instantiation of `user_press_required_note`: note 60 required,
user press arrives at wall-clock 100000 (arbitrarily late). -/
theorem user_press_required_note_witness :
    (PlayAlong.mk ⟨21, 108⟩ {60} []).user_keyboard_range.contains 60 = true ∧
    60 ∈ (PlayAlong.mk ⟨21, 108⟩ {60} []).required_notes ∧
    (60 ∉ ((PlayAlong.mk ⟨21, 108⟩ {60} []).press_key MidiEventSource.User 60
        true 100000).required_notes ∧
     ∀ item ∈ ((PlayAlong.mk ⟨21, 108⟩ {60} []).press_key MidiEventSource.User
        60 true 100000).user_pressed_recently, item.note_id ≠ 60) :=
  ⟨by decide, by decide,
   user_press_required_note (PlayAlong.mk ⟨21, 108⟩ {60} []) 60 100000
     (by decide) (by decide)⟩

/-- C4: a user-sourced event for an out-of-range note leaves the reconciler
unchanged (any on/off flag), and a user-sourced NoteOff leaves it unchanged
as well. -/
theorem user_event_noop_cases (p : PlayAlong) (n now : Nat) (b : Bool) :
    (p.user_keyboard_range.contains n = false →
      p.press_key MidiEventSource.User n b now = p) ∧
    p.press_key MidiEventSource.User n false now = p := by
  constructor
  · intro hc
    simp [PlayAlong.press_key, hc]
  · by_cases hc : p.user_keyboard_range.contains n = true
    · simp [PlayAlong.press_key, hc, PlayAlong.user_press_key]
    · simp [PlayAlong.press_key, hc]

/-- Concrete instantiation of `user_event_noop_cases`: note 5 is below the
88-key range 21–108, so a user NoteOn for it changes nothing. -/
theorem user_event_noop_cases_witness :
    (PlayAlong.mk ⟨21, 108⟩ {60} [⟨0, 62⟩]).user_keyboard_range.contains 5
        = false ∧
    (PlayAlong.mk ⟨21, 108⟩ {60} [⟨0, 62⟩]).press_key MidiEventSource.User 5
        true 0 = PlayAlong.mk ⟨21, 108⟩ {60} [⟨0, 62⟩] :=
  ⟨by decide,
   (user_event_noop_cases (PlayAlong.mk ⟨21, 108⟩ {60} [⟨0, 62⟩]) 5 0 true).1
     (by decide)⟩

/-- C5: the periodic sweep retains exactly the pending presses aged at most
500 ms, keeps the retained entries in their relative order (sublist), and
changes no other reconciler field. -/
theorem tick_purges_expired (p : PlayAlong) (now : Nat) :
    (p.update now).required_notes = p.required_notes ∧
    (p.update now).user_keyboard_range = p.user_keyboard_range ∧
    List.Sublist (p.update now).user_pressed_recently p.user_pressed_recently ∧
    (∀ item ∈ (p.update now).user_pressed_recently,
      now - item.timestamp ≤ 500) ∧
    (∀ item ∈ p.user_pressed_recently, now - item.timestamp ≤ 500 →
      item ∈ (p.update now).user_pressed_recently) := by
  refine ⟨rfl, rfl, List.filter_sublist _, ?_, ?_⟩
  · intro item hmem
    have := List.of_mem_filter hmem
    simpa using this
  · intro item hmem hle
    exact List.mem_filter_of_mem hmem (by simpa using hle)

/-- Concrete instantiation of `tick_purges_expired`: at `now = 501`, the press
stamped 0 (age 501) is purged and the press stamped 490 (age 11) is kept. -/
theorem tick_purges_expired_witness :
    ((PlayAlong.mk ⟨21, 108⟩ {70} [⟨0, 60⟩, ⟨490, 61⟩]).update
        501).user_pressed_recently = [⟨490, 61⟩] ∧
    ((PlayAlong.mk ⟨21, 108⟩ {70} [⟨0, 60⟩, ⟨490, 61⟩]).update
        501).required_notes = {70} ∧
    (⟨490, 61⟩ : UserPress) ∈
      ((PlayAlong.mk ⟨21, 108⟩ {70} [⟨0, 60⟩, ⟨490, 61⟩]).update
        501).user_pressed_recently :=
  ⟨by decide,
   (tick_purges_expired (PlayAlong.mk ⟨21, 108⟩ {70} [⟨0, 60⟩, ⟨490, 61⟩])
      501).1,
   (tick_purges_expired (PlayAlong.mk ⟨21, 108⟩ {70} [⟨0, 60⟩, ⟨490, 61⟩])
      501).2.2.2.2 ⟨490, 61⟩ (by decide) (by decide)⟩

/-- C10: a file-sourced NoteOn is satisfied by a pending press of any age:
for every timestamp `ts` of a pending entry for the note, the press is
consumed (the pending count strictly drops) and `required_notes` is left
unchanged, with no age condition anywhere. -/
theorem file_press_consumes_any_age (p : PlayAlong) (n ts : Nat)
    (h : (⟨ts, n⟩ : UserPress) ∈ p.user_pressed_recently) :
    (p.file_press_key n true).required_notes = p.required_notes ∧
    countNote n (p.file_press_key n true).user_pressed_recently
      < countNote n p.user_pressed_recently := by
  have hex : ∃ item ∈ p.user_pressed_recently, item.note_id = n :=
    ⟨⟨ts, n⟩, h, rfl⟩
  have hany := (anyNote_iff _ _).mpr hex
  rw [file_press_key_true_found p n hany]
  refine ⟨rfl, ?_⟩
  show countNote n (removeFirstPress n p.user_pressed_recently)
    < countNote n p.user_pressed_recently
  have := countNote_removeFirstPress_self hex
  omega

/-! Lemmas about the playback-controller side. -/

lemma foldl_midi_event_sent (l : List (Nat × Nat)) (o : OutputConnection) :
    (l.foldl (fun o cp => o.midi_event cp.1 (MidiMessage.programChange cp.2))
        o).sent
      = o.sent ++ l.map (fun cp => OutMsg.midi cp.1 (MidiMessage.programChange cp.2)) := by
  induction l generalizing o with
  | nil => simp
  | cons hd tl ih =>
    rw [List.foldl_cons, ih]
    simp [OutputConnection.midi_event, List.append_assoc]

lemma lookup_upsertProg_self (l : List (Nat × Nat)) (ch prog : Nat) :
    (upsertProg l ch prog).lookup ch = some prog := by
  induction l with
  | nil => simp [upsertProg, List.lookup]
  | cons hd tl ih =>
    obtain ⟨c, q⟩ := hd
    by_cases h : c = ch
    · subst h
      simp [upsertProg, List.lookup]
    · have hb : (ch == c) = false := by
        simp
        exact fun hh => h hh.symm
      simp [upsertProg, h, List.lookup, hb, ih]

lemma lookup_upsertProg_ne (l : List (Nat × Nat)) (ch ch' prog : Nat)
    (h : ch' ≠ ch) :
    (upsertProg l ch prog).lookup ch' = l.lookup ch' := by
  induction l with
  | nil =>
    have hb : (ch' == ch) = false := by
      simp
      exact h
    simp [upsertProg, List.lookup, hb]
  | cons hd tl ih =>
    obtain ⟨c, q⟩ := hd
    by_cases hc : c = ch
    · subst hc
      have hb : (ch' == c) = false := by
        simp
        exact h
      simp [upsertProg, List.lookup, hb]
    · by_cases hc' : ch' = c
      · subst hc'
        simp [upsertProg, hc, List.lookup]
      · have hb : (ch' == c) = false := by
          simp
          exact hc'
        simp [upsertProg, hc, List.lookup, hb, ih]

lemma lastProg_cons (e : ProgEvent) (rest : List ProgEvent) (t ch : Nat) :
    lastProgramAtOrBefore (e :: rest) t ch
      = (lastProgramAtOrBefore rest t ch).or
          (if e.timestamp ≤ t ∧ e.channel = ch then some e.program else none) := by
  unfold lastProgramAtOrBefore
  rw [List.reverse_cons, List.find?_append]
  cases hfind : rest.reverse.find?
      (fun e => decide (e.timestamp ≤ t) && decide (e.channel = ch)) with
  | some v => simp [Option.or]
  | none =>
    by_cases h1 : e.timestamp ≤ t <;> by_cases h2 : e.channel = ch <;>
      simp [List.find?, Option.or, h1, h2]

lemma lookup_programFold (t ch : Nat) (track : List ProgEvent)
    (acc : List (Nat × Nat)) :
    (track.foldl
        (fun acc e =>
          if e.timestamp ≤ t then upsertProg acc e.channel e.program else acc)
        acc).lookup ch
      = (lastProgramAtOrBefore track t ch).or (acc.lookup ch) := by
  induction track generalizing acc with
  | nil => simp [lastProgramAtOrBefore, Option.or]
  | cons e rest ih =>
    rw [List.foldl_cons, lastProg_cons, ih]
    cases hlp : lastProgramAtOrBefore rest t ch with
    | some v => simp [Option.or]
    | none =>
      simp only [Option.or]
      by_cases h1 : e.timestamp ≤ t
      · by_cases h2 : e.channel = ch
        · subst h2
          simp [h1, lookup_upsertProg_self]
        · have h2' : ch ≠ e.channel := fun hh => h2 hh.symm
          simp [h1, h2, lookup_upsertProg_ne _ _ _ _ h2']
      · simp [h1]

lemma mem_keys_upsertProg {x : Nat} (l : List (Nat × Nat)) (ch prog : Nat) :
    x ∈ (upsertProg l ch prog).map Prod.fst
      ↔ x ∈ l.map Prod.fst ∨ x = ch := by
  induction l with
  | nil => simp [upsertProg]
  | cons hd tl ih =>
    obtain ⟨c, q⟩ := hd
    by_cases h : c = ch
    · subst h
      simp [upsertProg]
      tauto
    · simp [upsertProg, h, ih]
      tauto

lemma nodup_keys_upsertProg {l : List (Nat × Nat)} (ch prog : Nat)
    (h : (l.map Prod.fst).Nodup) :
    ((upsertProg l ch prog).map Prod.fst).Nodup := by
  induction l with
  | nil => simp [upsertProg]
  | cons hd tl ih =>
    obtain ⟨c, q⟩ := hd
    rw [List.map_cons, List.nodup_cons] at h
    by_cases hc : c = ch
    · subst hc
      simpa [upsertProg, List.nodup_cons] using h
    · rw [show upsertProg ((c, q) :: tl) ch prog
            = (c, q) :: upsertProg tl ch prog by simp [upsertProg, hc]]
      rw [List.map_cons, List.nodup_cons]
      refine ⟨?_, ih h.2⟩
      rw [mem_keys_upsertProg]
      rintro (hmem | hmem)
      · exact h.1 hmem
      · exact hc hmem

lemma nodup_keys_programFold (t : Nat) (track : List ProgEvent) :
    ∀ acc : List (Nat × Nat), (acc.map Prod.fst).Nodup →
      ((track.foldl
          (fun acc e =>
            if e.timestamp ≤ t then upsertProg acc e.channel e.program else acc)
          acc).map Prod.fst).Nodup := by
  induction track with
  | nil => intro acc h; exact h
  | cons e rest ih =>
    intro acc h
    rw [List.foldl_cons]
    by_cases he : e.timestamp ≤ t
    · rw [if_pos he]
      exact ih _ (nodup_keys_upsertProg e.channel e.program h)
    · rw [if_neg he]
      exact ih _ h

lemma set_time_time (m : MidiPlayer) (t : Nat) :
    (m.set_time t).playback.time = t := by
  show ((m.playback.setTime t).update 0).2.time = t
  by_cases h : m.playback.paused
  · simp [PlaybackState.update, PlaybackState.setTime, h]
  · simp [PlaybackState.update, PlaybackState.setTime, h]

lemma routeStep_eq (tracks : List PlayerConfig) (now : Nat)
    (o : OutputConnection) (pa : PlayAlong) (e : MidiEvent) :
    routeStep tracks now (o, pa) e
      = (match tracks.getD e.track_id PlayerConfig.Mute with
          | PlayerConfig.Auto => (o.midi_event e.channel e.message, pa)
          | PlayerConfig.Human =>
            (o.midi_event e.channel e.message,
             pa.midi_event MidiEventSource.File now e.message)
          | PlayerConfig.Mute => (o, pa)) := rfl

lemma specRoutedOut_cons (tracks : List PlayerConfig) (e : MidiEvent)
    (rest : List MidiEvent) :
    specRoutedOut tracks (e :: rest)
      = (match tracks.getD e.track_id PlayerConfig.Mute with
          | PlayerConfig.Mute => []
          | _ => [OutMsg.midi e.channel e.message]) ++ specRoutedOut tracks rest := rfl

lemma specRoutedPA_cons (tracks : List PlayerConfig) (now : Nat)
    (pa : PlayAlong) (e : MidiEvent) (rest : List MidiEvent) :
    specRoutedPA tracks now pa (e :: rest)
      = specRoutedPA tracks now
          (match tracks.getD e.track_id PlayerConfig.Mute with
            | PlayerConfig.Human =>
              pa.midi_event MidiEventSource.File now e.message
            | _ => pa) rest := rfl

lemma routeFold_out (tracks : List PlayerConfig) (now : Nat)
    (events : List MidiEvent) :
    ∀ (o : OutputConnection) (pa : PlayAlong),
      (events.foldl (routeStep tracks now) (o, pa)).1.sent
        = o.sent ++ specRoutedOut tracks events := by
  induction events with
  | nil => intro o pa; simp [specRoutedOut]
  | cons e rest ih =>
    intro o pa
    rw [List.foldl_cons, routeStep_eq, specRoutedOut_cons]
    cases tracks.getD e.track_id PlayerConfig.Mute <;>
      simp [ih, OutputConnection.midi_event, List.append_assoc]

lemma routeFold_pa (tracks : List PlayerConfig) (now : Nat)
    (events : List MidiEvent) :
    ∀ (o : OutputConnection) (pa : PlayAlong),
      (events.foldl (routeStep tracks now) (o, pa)).2
        = specRoutedPA tracks now pa events := by
  induction events with
  | nil => intro o pa; simp [specRoutedPA]
  | cons e rest ih =>
    intro o pa
    rw [List.foldl_cons, routeStep_eq, specRoutedPA_cons]
    cases tracks.getD e.track_id PlayerConfig.Mute <;> simp [ih]

/-- C6: `resume` marks playback playing and clears the reconciler's
`required_notes`; the reconciler's reset (`PlayAlong::clear`) clears
`required_notes` only; in both cases `user_pressed_recently` is untouched. -/
theorem resume_reset_spec (m : MidiPlayer) (p : PlayAlong) :
    m.resume.playback.paused = false ∧
    m.resume.play_along.required_notes = ∅ ∧
    m.resume.play_along.user_pressed_recently
      = m.play_along.user_pressed_recently ∧
    m.resume.play_along.user_keyboard_range
      = m.play_along.user_keyboard_range ∧
    p.clear.required_notes = ∅ ∧
    p.clear.user_pressed_recently = p.user_pressed_recently :=
  ⟨rfl, rfl, rfl, rfl, rfl, rfl⟩

/-- C7: `set_time(t)` leaves the reconciler untouched (the jumped events are
discarded), moves the position to `t`, appends to the output trace exactly the
all-notes-off followed by the per-channel program replay, and the replayed
program of every channel is the last program change at or before `t`. -/
theorem set_time_spec (m : MidiPlayer) (t : Nat) :
    (m.set_time t).play_along = m.play_along ∧
    (m.set_time t).playback.time = t ∧
    (m.set_time t).output.sent
      = m.output.sent ++ OutMsg.stopAll ::
          (program_for_timestamp m.song.program_track t).map
            (fun cp => OutMsg.midi cp.1 (MidiMessage.programChange cp.2)) ∧
    ((program_for_timestamp m.song.program_track t).map Prod.fst).Nodup ∧
    ∀ ch, (program_for_timestamp m.song.program_track t).lookup ch
        = lastProgramAtOrBefore m.song.program_track t ch := by
  refine ⟨rfl, set_time_time m t, ?_, nodup_keys_programFold t _ [] (by simp), ?_⟩
  · simp only [MidiPlayer.set_time, MidiPlayer.send_midi_programs_for_timestamp,
      MidiPlayer.clear, OutputConnection.stop_all]
    rw [foldl_midi_event_sent]
    simp [List.append_assoc]
  · intro ch
    have h := lookup_programFold t ch m.song.program_track []
    simpa [Option.or_none] using h

/-- C8: `rewind(Δ)` computes the new position with saturating arithmetic (the
saturated value of `time + Δ`, never negative, exactly zero once `Δ` rewinds
past the start) and then performs exactly `set_time` on the saturated time. -/
theorem rewind_saturating_spec (m : MidiPlayer) (delta : Int) :
    ((m.rewind delta).playback.time : Int)
      = max 0 ((m.playback.time : Int) + delta) ∧
    m.rewind delta = m.set_time (((m.playback.time : Int) + delta).toNat) ∧
    (delta ≤ -(m.playback.time : Int) → (m.rewind delta).playback.time = 0) := by
  have key : (if delta < 0 then m.playback.time - (-delta).toNat
        else m.playback.time + delta.toNat)
      = ((m.playback.time : Int) + delta).toNat := by
    by_cases h : delta < 0
    · rw [if_pos h]; omega
    · rw [if_neg h]; omega
  have heq : m.rewind delta
      = m.set_time (((m.playback.time : Int) + delta).toNat) := by
    show m.set_time _ = m.set_time _
    rw [key]
  refine ⟨?_, heq, ?_⟩
  · rw [heq, set_time_time]
    omega
  · intro h
    rw [heq, set_time_time]
    omega

/-- A concrete playing controller at position 1000 ms, used by witnesses. -/
def playingSample : MidiPlayer :=
  ⟨⟨1000, false, 5000, 0, []⟩, ⟨[]⟩, ⟨[], [⟨0, 0, 5⟩]⟩, ⟨⟨21, 108⟩, ∅, []⟩⟩

/-- Concrete instantiation of `rewind_saturating_spec`: rewinding 2000 ms from
position 1000 ms saturates at exactly zero. -/
theorem rewind_saturating_spec_witness :
    (-2000 : Int) ≤ -(playingSample.playback.time : Int) ∧
    (playingSample.rewind (-2000)).playback.time = 0 :=
  ⟨by decide, (rewind_saturating_spec playingSample (-2000)).2.2 (by decide)⟩

/-- C9: while paused `update` returns no events and sends nothing to the
output; the events of a tick are returned to the caller in full, the output
trace grows by exactly the Auto/Human-forwarded messages (Mute contributes
nothing), and the reconciler is fed exactly the Human-track events as
file-sourced, after its periodic sweep. -/
theorem update_routing_spec (m : MidiPlayer) (delta now : Nat) :
    (m.playback.paused = true →
      (m.update delta now).1 = [] ∧
      (m.update delta now).2.output = m.output) ∧
    ((m.update delta now).1 = (m.playback.update delta).1 ∧
     (m.update delta now).2.output.sent
        = m.output.sent ++ specRoutedOut m.song.tracks (m.update delta now).1 ∧
     (m.update delta now).2.play_along
        = specRoutedPA m.song.tracks now (m.play_along.update now)
            (m.update delta now).1) := by
  constructor
  · intro hp
    have hev : (m.playback.update delta).1 = [] := by
      simp [PlaybackState.update, hp]
    constructor
    · exact hev
    · show ((m.playback.update delta).1.foldl
          (routeStep m.song.tracks now) (m.output, m.play_along.update now)).1
          = m.output
      rw [hev]
      rfl
  · exact ⟨rfl, routeFold_out _ _ _ _ _, routeFold_pa _ _ _ _ _⟩

/-- A concrete paused controller with a pending event, used by witnesses. -/
def pausedSample : MidiPlayer :=
  ⟨⟨0, true, 1000, 0, [⟨10, 0, 3, MidiMessage.noteOn 60 80⟩]⟩, ⟨[]⟩,
   ⟨[PlayerConfig.Human], []⟩, ⟨⟨21, 108⟩, ∅, []⟩⟩

/-- Concrete instantiation of `update_routing_spec`: a paused player returns
no events and sends nothing. -/
theorem update_routing_spec_witness :
    pausedSample.playback.paused = true ∧
    ((pausedSample.update 100 0).1 = [] ∧
     (pausedSample.update 100 0).2.output = pausedSample.output) :=
  ⟨rfl, (update_routing_spec pausedSample 100 0).1 rfl⟩

/-- Concrete instantiation of `file_press_consumes_any_age`: the pending press
for note 60 is 100 seconds old (timestamp 0) and is still consumed. -/
theorem file_press_consumes_any_age_witness :
    (⟨0, 60⟩ : UserPress) ∈
      (PlayAlong.mk ⟨21, 108⟩ ∅ [⟨0, 60⟩]).user_pressed_recently ∧
    ((PlayAlong.mk ⟨21, 108⟩ ∅ [⟨0, 60⟩]).file_press_key 60
        true).required_notes = (PlayAlong.mk ⟨21, 108⟩ ∅ [⟨0, 60⟩]).required_notes ∧
    countNote 60 ((PlayAlong.mk ⟨21, 108⟩ ∅ [⟨0, 60⟩]).file_press_key 60
        true).user_pressed_recently < countNote 60 [(⟨0, 60⟩ : UserPress)] :=
  ⟨by decide, file_press_consumes_any_age (PlayAlong.mk ⟨21, 108⟩ ∅ [⟨0, 60⟩])
    60 0 (by decide)⟩

example :
    (((PlayAlong.new ⟨21, 108⟩).user_press_key 60 true 0).file_press_key 60
        true).user_pressed_recently = [] := by decide

example :
    (((PlayAlong.new ⟨21, 108⟩).file_press_key 60 true).press_key
        MidiEventSource.User 60 true 700).required_notes = ∅ := by decide
